import Mathlib

/-!
Verification development for the MathematicaPlus browser extension
(`src/contentScriptLogic.ts`, `src/storage.ts`, `src/messageHandlers.ts`).

Strings are modelled as `List Char`.  JavaScript regular expressions used by
the source are specialised to equivalent deterministic scanners (the patterns
involved — `\[\s*Kind\s*:\s*(.*?)\]`, `^(#{1,6})\s+(.+)$`, `^[-*]\s+(.+)$`,
`\*\*([^*]+)\*\*`, math-delimiter search via `indexOf` — admit no
backtracking ambiguity, as argued in comments at each definition).
The KaTeX renderer is an external library; it is modelled as an arbitrary
function `List Char → Bool → Option (List Char)` where `none` stands for a
thrown exception (caught by the source's `try`/`catch`).
Loop-shaped scans take an explicit fuel argument; fuel `s.length` is always
sufficient because every iteration consumes at least one character.
-/

namespace MathematicaPlus

/-! ## Definitions: shallow embedding of the source -/

/-- Convert a Lean string literal to the `List Char` representation. -/
def chars (s : String) : List Char := s.toList

/-- The JavaScript `\s` / `String.trim` whitespace class, restricted to the
characters that can occur in the texts handled here (ASCII whitespace and
NBSP; the source itself rewrites ` ` to a plain space before matching). -/
def jsWs (c : Char) : Bool :=
  c == ' ' || c == '\t' || c == '\n' || c == '\r' ||
  c == Char.ofNat 11 || c == Char.ofNat 12 || c == Char.ofNat 160

/-- JavaScript `String.prototype.trim`: strip leading and trailing whitespace. -/
def trimChars (l : List Char) : List Char :=
  ((l.dropWhile jsWs).reverse.dropWhile jsWs).reverse

/-- Number of `'$'` characters in a string. -/
def countDollar : List Char → Nat
  | [] => 0
  | c :: cs => (if c == '$' then 1 else 0) + countDollar cs

/-- `text.replace(/\r\n/g, '\n')` from `renderMarkdown`. -/
def crlfToLf : List Char → List Char
  | [] => []
  | '\r' :: '\n' :: cs => '\n' :: crlfToLf cs
  | c :: cs => c :: crlfToLf cs

/-- `normalized.split('\n')` from `renderMarkdown`. -/
def splitLines : List Char → List (List Char)
  | [] => [[]]
  | c :: cs =>
    if c = '\n' then [] :: splitLines cs
    else
      match splitLines cs with
      | [] => [[c]]
      | l :: ls => (c :: l) :: ls

/-- `line.match(/^(#{1,6})\s+(.+)$/)` : the hash run is taken greedily (more
than six hashes followed by whitespace can never match, because backtracking
to a shorter run puts a `#` where `\s+` must match); `\s+` then takes the
maximal whitespace run except that `(.+)` keeps at least one character.
Returns the heading level and the second capture group. -/
def headingMatch (line : List Char) : Option (Nat × List Char) :=
  let hashes := line.takeWhile (fun c => c == '#')
  let rest := line.dropWhile (fun c => c == '#')
  if 1 ≤ hashes.length ∧ hashes.length ≤ 6 then
    let ws := (rest.takeWhile jsWs).length
    if 1 ≤ ws ∧ 2 ≤ rest.length then
      some (hashes.length, rest.drop (min ws (rest.length - 1)))
    else none
  else none

/-- `line.match(/^[-*]\s+(.+)$/)` : a `-` or `*` bullet followed by the same
`\s+(.+)` tail as in `headingMatch`. Returns the capture group. -/
def listMatch (line : List Char) : Option (List Char) :=
  match line with
  | [] => none
  | c :: rest =>
    if c = '-' ∨ c = '*' then
      let ws := (rest.takeWhile jsWs).length
      if 1 ≤ ws ∧ 2 ≤ rest.length then
        some (rest.drop (min ws (rest.length - 1)))
      else none
    else none

/-- The HTML fragments pushed to `output` for a single line of
`renderMarkdown`, together with the updated `inList` flag. -/
def mdLinePieces (inList : Bool) (line : List Char) : List (List Char) × Bool :=
  match headingMatch line with
  | some (level, content) =>
    ((if inList then [chars "</ul>"] else []) ++
      [chars "<div class=\"md-h md-h" ++ (Nat.repr level).toList ++ chars "\">" ++
        trimChars content ++ chars "</div>"],
     false)
  | none =>
    match listMatch line with
    | some content =>
      ((if inList then [] else [chars "<ul class=\"md-list\">"]) ++
        [chars "<li>" ++ trimChars content ++ chars "</li>"],
       true)
    | none =>
      let closePart := if inList then [chars "</ul>"] else []
      if trimChars line = [] then
        (closePart ++ [chars "<div class=\"md-line md-line-empty\"></div>"], false)
      else
        (closePart ++ [chars "<div class=\"md-line\">" ++ line ++ chars "</div>"], false)

/-- The line loop of `renderMarkdown`, including the final `</ul>` close. -/
def mdProcessLines (inList : Bool) : List (List Char) → List (List Char)
  | [] => if inList then [chars "</ul>"] else []
  | line :: rest =>
    let p := mdLinePieces inList line
    p.1 ++ mdProcessLines p.2 rest

/-- One attempt of `/\*\*([^*]+)\*\*/` at the start of `s`: `[^*]+` takes the
maximal nonempty star-free run (a shorter run would leave a non-`*` character
where `**` must match), which must be followed by `**`.  Returns the bold body
and the remaining input. -/
def boldMatchAt (s : List Char) : Option (List Char × List Char) :=
  match s with
  | c1 :: c2 :: rest =>
    if c1 = '*' ∧ c2 = '*' ∧ ¬(rest.takeWhile (fun c => c != '*')).isEmpty then
      match rest.dropWhile (fun c => c != '*') with
      | a :: b :: after =>
        if a = '*' ∧ b = '*' then some (rest.takeWhile (fun c => c != '*'), after)
        else none
      | _ => none
    else none
  | _ => none

/-- `result.replace(/\*\*([^*]+)\*\*/g, '<strong>$1</strong>')`: left-to-right
global scan, advancing one character when no match starts at the current
position and past the whole match otherwise.  Replacements are not rescanned. -/
def boldReplaceAux : Nat → List Char → List Char
  | 0, s => s
  | _ + 1, [] => []
  | fuel + 1, c :: cs =>
    match boldMatchAt (c :: cs) with
    | some (body, after) =>
      chars "<strong>" ++ body ++ chars "</strong>" ++ boldReplaceAux fuel after
    | none => c :: boldReplaceAux fuel cs

/-- `renderMarkdown` from `contentScriptLogic.ts` (lines 490–537): normalise
CRLF, split into lines, run the heading/list/blank-line transformation with
the `inList` state machine, join, then apply the global bold substitution. -/
def renderMarkdown (text : List Char) : List Char :=
  let joined := (mdProcessLines false (splitLines (crlfToLf text))).flatten
  boldReplaceAux joined.length joined

/-- One recorded math span of `renderLatex`: the placeholder token, the raw
TeX source between the delimiters, and the display flag. -/
structure MathTok where
  token : List Char
  tex : List Char
  display : Bool
deriving DecidableEq

/-- The unique placeholder `__MATH_<k>__`. -/
def tokenName (k : Nat) : List Char :=
  chars "__MATH_" ++ (Nat.repr k).toList ++ chars "__"

/-- `text.indexOf(d, start)` recast as a split: the part strictly before the
first occurrence of the delimiter `d`, and the part after it; `none` when the
delimiter does not occur. -/
def splitDelim (d : List Char) : List Char → Option (List Char × List Char)
  | [] => if d.isEmpty then some ([], []) else none
  | c :: cs =>
    if d.isPrefixOf (c :: cs) then some ([], (c :: cs).drop d.length)
    else
      match splitDelim d cs with
      | some (b, a) => some (c :: b, a)
      | none => none

/-- The `while` scan of `renderLatex` (lines 457–473): on a `$`, decide
display mode by peeking at the next character, search for the closing
delimiter; replace a found span by its placeholder, otherwise emit the `$`
literally and continue with the very next character.  Fuel decreases by one
per loop iteration; each iteration consumes at least one character, so fuel
`s.length` is sufficient. -/
def mathScanAux : Nat → Nat → List Char → List Char × List MathTok
  | 0, _, s => (s, [])
  | fuel + 1, k, s =>
    match s with
    | [] => ([], [])
    | c :: rest =>
      if c = '$' then
        let isDisplay := rest.head? == some '$'
        let searchIn := if isDisplay then rest.tail else rest
        match splitDelim (if isDisplay then ['$', '$'] else ['$']) searchIn with
        | some (tex, after) =>
          let p := mathScanAux fuel (k + 1) after
          (tokenName k ++ p.1, ⟨tokenName k, tex, isDisplay⟩ :: p.2)
        | none =>
          let p := mathScanAux fuel k rest
          ('$' :: p.1, p.2)
      else
        let p := mathScanAux fuel k rest
        (c :: p.1, p.2)

/-- First-occurrence string replacement, as JavaScript
`String.prototype.replace` with a string pattern.  (The `$`-escape processing
JavaScript applies to the replacement string is not modelled; no claim here
exercises a replacement containing `$`.) -/
def replaceFirst (pat repl : List Char) : List Char → List Char
  | [] => []
  | c :: cs =>
    if pat.isPrefixOf (c :: cs) then repl ++ (c :: cs).drop pat.length
    else c :: replaceFirst pat repl cs

/-- The re-substitution step for one token (lines 477–485): render the
trimmed TeX through KaTeX, falling back to the original delimited source when
the renderer throws (`kr` returns `none`). -/
def mathRenderReplacement (kr : List Char → Bool → Option (List Char))
    (t : MathTok) : List Char :=
  match kr (trimChars t.tex) t.display with
  | some html => html
  | none =>
    if t.display then chars "$$" ++ t.tex ++ chars "$$"
    else '$' :: (t.tex ++ ['$'])

/-- `renderLatex` from `contentScriptLogic.ts` (lines 452–488): extract math
spans into placeholders, run `renderMarkdown` on the placeholder text, then
substitute each placeholder by its rendered (or fallback) form in order.
`kr` models `katex.renderToString` with `throwOnError: false`; `none` models
a thrown exception. -/
def renderLatex (kr : List Char → Bool → Option (List Char))
    (text : List Char) : List Char :=
  let p := mathScanAux text.length 0 text
  p.2.foldl (fun acc t => replaceFirst t.token (mathRenderReplacement kr t) acc)
    (renderMarkdown p.1)

/-- Sum of dollar counts over a list of fragments. -/
def sumCount (ls : List (List Char)) : Nat :=
  ls.foldr (fun l acc => countDollar l + acc) 0

/-- JavaScript `String.prototype.includes`: substring test. -/
def containsSub (needle : List Char) : List Char → Bool
  | [] => needle.isEmpty
  | s@(_ :: cs) => needle.isPrefixOf s || containsSub needle cs

/-- A concrete stand-in for `katex.renderToString` used in closed evaluations:
it renders TeX source `t` as `K(t)` (no `$` in its output). -/
def krTest : List Char → Bool → Option (List Char) :=
  fun tex _ => some (chars "K(" ++ tex ++ chars ")")

/-- `\s*` : skip a maximal whitespace run. -/
def skipWs (s : List Char) : List Char := s.dropWhile jsWs

/-- The lazy tail `(.*?)\]` of the directive regexes: the content runs up to
the first `]`; `.` matches neither `\n` nor `\r`, so a line break before the
first `]` makes the attempt fail.  Returns the capture group and the input
remaining after the `]`. -/
def directiveContent : List Char → Option (List Char × List Char)
  | [] => none
  | c :: cs =>
    if c = ']' then some ([], cs)
    else if c = '\n' ∨ c = '\r' then none
    else
      match directiveContent cs with
      | some (content, after) => some (c :: content, after)
      | none => none

/-- One anchored attempt of `\[\s*<kind>\s*:\s*(.*?)\]` at the start of the
input (each `\s*` is a maximal munch: the following literal is never a
whitespace character, so no backtracking arises).  Returns the capture group
and the remaining input after the match. -/
def tryDirective (kind : List Char) : List Char → Option (List Char × List Char)
  | [] => none
  | c :: cs =>
    if c = '[' then
      if kind.isPrefixOf (skipWs cs) then
        match skipWs ((skipWs cs).drop kind.length) with
        | ':' :: r => directiveContent (skipWs r)
        | _ => none
      else none
    else none

/-- The `while ((match = regex.exec(text)) !== null)` loop: find successive
non-overlapping matches left to right, resuming after each match, and push
`match[1].trim()` for each.  Fuel `s.length` is sufficient since both
continuations consume at least one character. -/
def directiveMatchesAux (kind : List Char) : Nat → List Char → List (List Char)
  | 0, _ => []
  | _ + 1, [] => []
  | fuel + 1, s =>
    match tryDirective kind s with
    | some (content, after) => trimChars content :: directiveMatchesAux kind fuel after
    | none => directiveMatchesAux kind fuel s.tail

/-- All `match[1].trim()` results of a directive regex over the text. -/
def directiveMatches (kind : List Char) (s : List Char) : List (List Char) :=
  directiveMatchesAux kind s.length s

/-- Where a directive is anchored: a span element (by its index in the
notebook's span list) or `document.body` in the batched v2 extractor. -/
inductive Anchor where
  | element (idx : Nat)
  | documentBody
deriving DecidableEq

/-- The `Directive` record of `contentScriptLogic.ts`.  `object : Option
Anchor` — `none` models the JavaScript `undefined` produced by an
out-of-bounds `mathSpans[index]`. -/
structure Directive where
  directive : String
  object : Option Anchor
  content : List Char
deriving DecidableEq

/-- The span filter of `getAllMathPlusDirectives` (lines 309–321): spans with
truthy `textContent` that `includes` the kind label, kept in document order
(represented by their indices). -/
def spanIndicesMentioning (label : List Char) (spans : List (List Char)) : List Nat :=
  (spans.enum.filter (fun p => !p.2.isEmpty && containsSub label p.2)).map (fun p => p.1)

/-- `matches.forEach((content, index) => directives.push({ directive: kind,
object: spans[index], content }))` (lines 323–333): every match yields a
directive; an out-of-bounds span lookup yields `object = none`. -/
def pairDirectives (kind : String) (anchors : List Nat) : Nat → List (List Char) → List Directive
  | _, [] => []
  | i, c :: cs =>
    ⟨kind, (anchors[i]?).map Anchor.element, c⟩ :: pairDirectives kind anchors (i + 1) cs

/-- `getAllMathPlusDirectives` (lines 273–336, current revision): regex
matches over the joined notebook text, positionally paired with the spans
whose text mentions the kind label; Math first, then Wolfram, then Explain. -/
def getAllMathPlusDirectives (notebookText : List Char) (spans : List (List Char)) : List Directive :=
  pairDirectives "Math" (spanIndicesMentioning (chars "Math") spans) 0
      (directiveMatches (chars "Math") notebookText)
    ++ pairDirectives "Wolfram" (spanIndicesMentioning (chars "Wolfram") spans) 0
      (directiveMatches (chars "Wolfram") notebookText)
    ++ pairDirectives "Explain" (spanIndicesMentioning (chars "Explain") spans) 0
      (directiveMatches (chars "Explain") notebookText)

/-- `getAllDirectivesFromNotebookCells` (lines 1782–1802): per cell, all Math
matches, then all Wolfram matches, then all Explain matches, each anchored to
`document.body`. -/
def getAllDirectivesFromNotebookCells (cells : List (List Char)) : List Directive :=
  (cells.map (fun cell =>
    (directiveMatches (chars "Math") cell).map
        (fun c => (⟨"Math", some Anchor.documentBody, c⟩ : Directive))
      ++ (directiveMatches (chars "Wolfram") cell).map
        (fun c => (⟨"Wolfram", some Anchor.documentBody, c⟩ : Directive))
      ++ (directiveMatches (chars "Explain") cell).map
        (fun c => (⟨"Explain", some Anchor.documentBody, c⟩ : Directive)))).flatten

/-- A JavaScript value as read back from `chrome.storage.local` (the store
accepts arbitrary JSON-serialisable values; `undef` models an absent key). -/
inductive JsValue where
  | undef
  | null
  | bool (b : Bool)
  | num (n : Int)
  | str (s : String)
deriving DecidableEq

/-- `getStoredProcessingMode` from the storage revision that the current
`contentScriptLogic.ts` imports (the one exporting `AiModel`,
`getStoredAiModel`, `getStoredChatRoomId`, `getStoredChatUsername`, mirrored
by `popup.ts`): the strict equality `result?.processingMode === 'v1'` selects
`'v1'`, every other stored value (absent, null, non-string, or a different
string) yields `'v2'`.  (A superseded revision of `storage.ts` instead has
`=== 'v2' ? 'v2' : 'v1'`; it lacks the exports the cited `runComputeAi`
needs, so it is not the module in force.) -/
def getStoredProcessingMode (stored : JsValue) : String :=
  if stored = JsValue.str "v1" then "v1" else "v2"

/-- The two processing paths of `runComputeAi`. -/
inductive ProcessingPath where
  | perAnchor
  | batch
deriving DecidableEq

/-- The mode dispatch of `runComputeAi` (lines 1856–1861): `processingMode
=== 'v2'` routes to `runComputeAiV2`, anything else falls through to the
per-anchor loop. -/
def runComputeAiPath (mode : String) : ProcessingPath :=
  if mode = "v2" then ProcessingPath.batch else ProcessingPath.perAnchor

/-- A relay reply as observed by `fetchAIResponse`'s callback.  The wrapping
`Option` models an absent callback argument; a `chrome.runtime.lastError`
channel failure is resolved by the source itself as `{ status: "error" }`.
`answer` is optional, as in `{ status: string; answer?: string }`. -/
structure RelayResponse where
  status : String
  answer : Option String
deriving DecidableEq

/-- `fetchAIResponse` from `contentScriptLogic.ts` (lines 338–355): on a
truthy response with `status === "success"` it returns `answer || null`
(JavaScript `||`: an absent **or empty** answer becomes `null`); otherwise it
returns `null`. -/
def fetchAIResponse (response : Option RelayResponse) : Option String :=
  match response with
  | some r =>
    if r.status = "success" then
      match r.answer with
      | some a => if a = "" then none else some a
      | none => none
    else none
  | none => none

/-- One chat message as fetched from the room resource. -/
structure OneChatMessage where
  username : String
  content : String
  timestamp : String
deriving DecidableEq

/-- The change-detection signature of `loadMessages` (lines 2262–2266):
`empty:<roomId>` for an empty snapshot, otherwise
`username|timestamp|content` per message joined by newlines. -/
def chatSignature (roomId : String) (messages : List OneChatMessage) : String :=
  if messages.isEmpty then "empty:" ++ roomId
  else String.intercalate "\n"
    (messages.map (fun m => m.username ++ "|" ++ m.timestamp ++ "|" ++ m.content))

/-- The closure state of `runChatModal` that `loadMessages` reads and writes
(scroll bookkeeping, which does not influence whether a render happens, is
not tracked). -/
structure ChatPanelState where
  currentRoomId : String
  isLoading : Bool
  lastMessagesSignature : String
  isInitialLoad : Bool
deriving DecidableEq

/-- `loadMessages` (lines 2256–2287) as a state transition.  The fetched
snapshot is a parameter (`oneChatGet` is the external room resource).
Returns the updated closure state and whether `renderChatMessages` ran:
a guard on empty room id or an in-flight load skips everything; otherwise the
signature is computed and the container is re-rendered only when
`forceRender` is set or the signature differs from the last rendered one, in
which case `lastMessagesSignature` is updated. -/
def loadMessages (st : ChatPanelState) (fetched : List OneChatMessage)
    (forceRender : Bool) : ChatPanelState × Bool :=
  if st.currentRoomId = "" ∨ st.isLoading then (st, false)
  else
    let signature := chatSignature st.currentRoomId fetched
    if forceRender ∨ signature ≠ st.lastMessagesSignature then
      ({ st with lastMessagesSignature := signature, isInitialLoad := false }, true)
    else
      ({ st with isInitialLoad := false }, false)

/-- The timer bookkeeping of one chat panel: `pollingId` is the closure
variable of `runChatModal`; `activeTimers` is the set of interval handles
created by this panel and not yet cleared; `nextId` feeds fresh handles from
`window.setInterval`. -/
structure PanelTimerState where
  nextId : Nat
  pollingId : Option Nat
  activeTimers : List Nat
deriving DecidableEq

/-- `stopPolling` (lines 1996–2001): `clearInterval` on the tracked handle,
then null it; a no-op when no handle is tracked. -/
def stopPolling (s : PanelTimerState) : PanelTimerState :=
  match s.pollingId with
  | some i =>
    { s with pollingId := none, activeTimers := s.activeTimers.filter (fun j => j != i) }
  | none => s

/-- `startPolling` (lines 2289–2294): always `stopPolling()` first, then
track a freshly allocated interval handle. -/
def startPolling (s : PanelTimerState) : PanelTimerState :=
  { nextId := (stopPolling s).nextId + 1,
    pollingId := some (stopPolling s).nextId,
    activeTimers := (stopPolling s).nextId :: (stopPolling s).activeTimers }

/-- The panel actions that touch the poll timer: `applyRoom` with a new id
ends in `startPolling` (likewise the initial open with a stored room);
`applyRoom` with the unchanged id only force-renders; the leave-room button
and the modal teardown (`onClose`) call `stopPolling`. -/
inductive ChatPanelAction where
  | joinNewRoom
  | rejoinSameRoom
  | leaveRoom
  | closePanel
deriving DecidableEq

/-- Effect of one panel action on the timer state. -/
def chatPanelTimerStep (s : PanelTimerState) : ChatPanelAction → PanelTimerState
  | ChatPanelAction.joinNewRoom => startPolling s
  | ChatPanelAction.rejoinSameRoom => s
  | ChatPanelAction.leaveRoom => stopPolling s
  | ChatPanelAction.closePanel => stopPolling s

/-- A freshly opened panel: `pollingId = null`, no interval created yet. -/
def initialPanelTimerState : PanelTimerState := ⟨0, none, []⟩

/-- The timer state after a sequence of join/rejoin/leave/close actions. -/
def runChatPanelTimers (acts : List ChatPanelAction) : PanelTimerState :=
  acts.foldl chatPanelTimerStep initialPanelTimerState

/-- The timers that ought to be alive given the tracked handle. -/
def trackedTimerList : Option Nat → List Nat
  | some i => [i]
  | none => []

/-- The two navigation controls shared by `buildModalElement` (lines
1688–1712) and `buildAuditModalCarousel` (lines 1084–1108); the two handlers
are character-for-character identical in the source. -/
inductive CarouselNav where
  | prev
  | next
deriving DecidableEq

/-- The `prevBtn` click handler: decrement only when `currentIndex > 0`. -/
def carouselPrev (i : Nat) : Nat := if 0 < i then i - 1 else i

/-- The `nextBtn` click handler: increment only when `currentIndex <
items.length - 1`, compared over JavaScript numbers (hence `Int`). -/
def carouselNext (n i : Nat) : Nat :=
  if (i : Int) < (n : Int) - 1 then i + 1 else i

/-- One navigation action on the carousel index. -/
def carouselStep (n i : Nat) : CarouselNav → Nat
  | CarouselNav.prev => carouselPrev i
  | CarouselNav.next => carouselNext n i

/-- The disabled flags set by `renderItem`: `index === 0` for prev and
`index === items.length - 1` for next. -/
def carouselNavDisabled (n i : Nat) : Bool × Bool :=
  ((i : Int) == 0, (i : Int) == (n : Int) - 1)

/-- The index after a sequence of clicks, starting from `currentIndex = 0`. -/
def runCarousel (n : Nat) (ops : List CarouselNav) : Nat :=
  ops.foldl (carouselStep n) 0

/-- A parsed JSON value, as produced by `JSON.parse`. -/
inductive Json where
  | null
  | bool (b : Bool)
  | num (n : Int)
  | str (s : String)
  | arr (items : List Json)
  | obj (fields : List (String × Json))

/-- First-match object field lookup. -/
def lookupField : List (String × Json) → String → Option Json
  | [], _ => none
  | (k, v) :: rest, key => if k = key then some v else lookupField rest key

/-- JavaScript property access `parsed.errors`: only objects carry own data
fields (arrays, strings and primitives yield `undefined` for `errors`). -/
def getField : Json → String → Option Json
  | Json.obj fields, key => lookupField fields key
  | _, _ => none

/-- JavaScript falsiness of a parsed JSON value (the `!parsed` test). -/
def jsFalsy : Json → Bool
  | Json.null => true
  | Json.bool b => !b
  | Json.num n => n == 0
  | Json.str s => s == ""
  | _ => false

/-- What `runNotebookAuditV2` presents after the response arrives. -/
inductive AuditOutcome where
  | channelError
  | formatError
  | noFindings
  | findingsCarousel (items : List Json)

/-- Response handling of `runNotebookAuditV2` (lines 1933–1969): a null
`fetchAIResponse` result shows the transient channel-error popup; otherwise
`parsed` is the result of `JSON.parse(response)` (`none` when it throws); a
falsy parse result or a missing/non-array `errors` property yields the
"format error" notice modal; an empty `errors` array yields the
"no findings" notice modal; otherwise the findings carousel is built. -/
def runNotebookAuditV2Handle (response : Option String) (parsed : Option Json) :
    AuditOutcome :=
  match response with
  | none => AuditOutcome.channelError
  | some _ =>
    match parsed with
    | none => AuditOutcome.formatError
    | some j =>
      if jsFalsy j then AuditOutcome.formatError
      else
        match getField j "errors" with
        | some (Json.arr items) =>
          if items.isEmpty then AuditOutcome.noFindings
          else AuditOutcome.findingsCarousel items
        | _ => AuditOutcome.formatError

/-- Only `buildAuditModalCarousel` attaches prev/next navigation;
`createAuditModal`, used for both notices, builds no navigation controls. -/
def auditOutcomeHasNav : AuditOutcome → Bool
  | AuditOutcome.findingsCarousel _ => true
  | _ => false

/-- Number of overlay modals appended for an outcome: exactly one for each
notice or carousel, none for the channel-error popup path. -/
def auditOverlayCount : AuditOutcome → Nat
  | AuditOutcome.channelError => 0
  | _ => 1

/-! ## Theorems -/

theorem countDollar_append (a b : List Char) :
    countDollar (a ++ b) = countDollar a + countDollar b := by
  induction a with
  | nil => simp [countDollar]
  | cons c cs ih => simp [countDollar, ih]; omega

theorem countDollar_reverse (l : List Char) :
    countDollar l.reverse = countDollar l := by
  induction l with
  | nil => rfl
  | cons c cs ih => simp [countDollar, List.reverse_cons, countDollar_append, ih]; omega

theorem countDollar_takeWhile (p : Char → Bool) (hp : p '$' = false)
    (l : List Char) : countDollar (l.takeWhile p) = 0 := by
  induction l with
  | nil => rfl
  | cons c cs ih =>
    by_cases hc : p c
    · have hcd : (c == '$') = false := by
        cases hd : c == '$'
        · rfl
        · have : c = '$' := by simpa using hd
          rw [this] at hc; rw [hc] at hp; exact absurd hp (by simp)
      simp [List.takeWhile, hc, countDollar, hcd, ih]
    · simp [List.takeWhile, hc, countDollar]

theorem countDollar_dropWhile (p : Char → Bool) (hp : p '$' = false)
    (l : List Char) : countDollar (l.dropWhile p) = countDollar l := by
  have h2 := countDollar_append (l.takeWhile p) (l.dropWhile p)
  rw [List.takeWhile_append_dropWhile, countDollar_takeWhile p hp] at h2
  omega

theorem countDollar_trimChars (l : List Char) :
    countDollar (trimChars l) = countDollar l := by
  have hws : jsWs '$' = false := by decide
  unfold trimChars
  rw [countDollar_reverse, countDollar_dropWhile jsWs hws,
    countDollar_reverse, countDollar_dropWhile jsWs hws]

theorem countDollar_drop_of_le_takeWhile (p : Char → Bool) (hp : p '$' = false) :
    ∀ (l : List Char) (k : Nat), k ≤ (l.takeWhile p).length →
    countDollar (l.drop k) = countDollar l := by
  intro l
  induction l with
  | nil => intro k hk; simp
  | cons c cs ih =>
    intro k hk
    match k with
    | 0 => rfl
    | j + 1 =>
      by_cases hc : p c
      · have hlen : j ≤ (cs.takeWhile p).length := by
          simp [List.takeWhile, hc] at hk; omega
        have hcd : (c == '$') = false := by
          cases hd : c == '$'
          · rfl
          · have : c = '$' := by simpa using hd
            rw [this] at hc; rw [hc] at hp; exact absurd hp (by simp)
        simp [List.drop, countDollar, hcd, ih j hlen]
      · simp [List.takeWhile, hc] at hk

theorem countDollar_crlfToLf (l : List Char) :
    countDollar (crlfToLf l) = countDollar l := by
  induction l using crlfToLf.induct with
  | case1 => rfl
  | case2 cs ih => simp [crlfToLf, countDollar, ih]
  | case3 c cs hne ih =>
    rw [crlfToLf.eq_def]
    cases c
    simp_all [countDollar]

theorem splitLines_ne_nil (s : List Char) : splitLines s ≠ [] := by
  induction s with
  | nil => simp [splitLines]
  | cons c cs ih =>
    by_cases hc : c = '\n'
    · simp [splitLines, hc]
    · simp only [splitLines, if_neg hc]
      cases h : splitLines cs with
      | nil => simp
      | cons l ls => simp

theorem sumCount_append (a b : List (List Char)) :
    sumCount (a ++ b) = sumCount a + sumCount b := by
  induction a with
  | nil => simp [sumCount]
  | cons l ls ih => simp [sumCount, List.foldr] at ih ⊢; omega

theorem countDollar_flatten (ls : List (List Char)) :
    countDollar ls.flatten = sumCount ls := by
  induction ls with
  | nil => rfl
  | cons l rest ih => simp [List.flatten, countDollar_append, sumCount, List.foldr] at ih ⊢; omega

theorem sumCount_splitLines (s : List Char) :
    sumCount (splitLines s) = countDollar s := by
  induction s with
  | nil => rfl
  | cons c cs ih =>
    by_cases hc : c = '\n'
    · subst hc
      simp [splitLines, sumCount, List.foldr, countDollar] at ih ⊢
      omega
    · simp only [splitLines, if_neg hc]
      cases h : splitLines cs with
      | nil => exact absurd h (splitLines_ne_nil cs)
      | cons l ls =>
        rw [h] at ih
        simp [sumCount, List.foldr, countDollar] at ih ⊢
        omega

theorem headingMatch_count {line : List Char} {lvl : Nat} {content : List Char}
    (h : headingMatch line = some (lvl, content)) :
    countDollar content = countDollar line := by
  have hhash : ((fun c => c == '#') '$') = false := by decide
  have hws : jsWs '$' = false := by decide
  simp only [headingMatch] at h
  split at h
  · split at h
    · rename_i hcond
      injection h with h'
      injection h' with h1 h2
      subst h2
      have hmin : min ((line.dropWhile (fun c => c == '#')).takeWhile jsWs).length
          ((line.dropWhile (fun c => c == '#')).length - 1)
          ≤ ((line.dropWhile (fun c => c == '#')).takeWhile jsWs).length :=
        Nat.min_le_left _ _
      rw [countDollar_drop_of_le_takeWhile jsWs hws _ _ hmin,
        countDollar_dropWhile (fun c => c == '#') hhash]
    · exact absurd h (by simp)
  · exact absurd h (by simp)

theorem headingMatch_level {line : List Char} {lvl : Nat} {content : List Char}
    (h : headingMatch line = some (lvl, content)) : 1 ≤ lvl ∧ lvl ≤ 6 := by
  simp only [headingMatch] at h
  split at h
  · split at h
    · rename_i hcond _
      injection h with h'
      injection h' with h1 h2
      subst h1
      exact hcond
    · exact absurd h (by simp)
  · exact absurd h (by simp)

theorem listMatch_count {line : List Char} {content : List Char}
    (h : listMatch line = some content) :
    countDollar content = countDollar line := by
  have hws : jsWs '$' = false := by decide
  match line with
  | [] => simp [listMatch] at h
  | c :: rest =>
    simp only [listMatch] at h
    split at h
    · split at h
      · rename_i hc hcond
        injection h with h'
        subst h'
        have hmin : min (rest.takeWhile jsWs).length (rest.length - 1)
            ≤ (rest.takeWhile jsWs).length := Nat.min_le_left _ _
        rw [countDollar_drop_of_le_takeWhile jsWs hws _ _ hmin]
        have hcd : (c == '$') = false := by
          rcases hc with hc | hc <;> subst hc <;> decide
        simp [countDollar, hcd]
      · exact absurd h (by simp)
    · exact absurd h (by simp)

theorem mdLinePieces_count (b : Bool) (line : List Char) :
    sumCount (mdLinePieces b line).1 = countDollar line := by
  have hUl : countDollar (chars "</ul>") = 0 := by decide
  have hUlOpen : countDollar (chars "<ul class=\"md-list\">") = 0 := by decide
  have hLi : countDollar (chars "<li>") = 0 := by decide
  have hLiC : countDollar (chars "</li>") = 0 := by decide
  have hDiv : countDollar (chars "</div>") = 0 := by decide
  have hLineTag : countDollar (chars "<div class=\"md-line\">") = 0 := by decide
  have hEmptyTag : countDollar (chars "<div class=\"md-line md-line-empty\"></div>") = 0 := by
    decide
  have hHOpen : countDollar (chars "<div class=\"md-h md-h") = 0 := by decide
  have hQuote : countDollar (chars "\">") = 0 := by decide
  unfold mdLinePieces
  cases hh : headingMatch line with
  | some p =>
    obtain ⟨lvl, content⟩ := p
    obtain ⟨h1, h6⟩ := headingMatch_level hh
    have hc := headingMatch_count hh
    have hrepr : countDollar (Nat.repr lvl).data = 0 := by
      interval_cases lvl <;> decide
    cases b <;>
      simp [sumCount, List.foldr, countDollar_append, countDollar_trimChars,
        hc, hrepr, hUl, hHOpen, hQuote, hDiv]
  | none =>
    cases hl : listMatch line with
    | some content =>
      have hc := listMatch_count hl
      cases b <;>
        simp [hh, sumCount, List.foldr, countDollar_append, countDollar_trimChars,
          hc, hUlOpen, hLi, hLiC]
    | none =>
      by_cases hblank : trimChars line = []
      · have h0 : countDollar line = 0 := by
          rw [← countDollar_trimChars, hblank]; rfl
        cases b <;>
          simp [hh, hl, hblank, sumCount, List.foldr, h0, hEmptyTag, hUl]
      · cases b <;>
          simp [hh, hl, hblank, sumCount, List.foldr, countDollar_append,
            hLineTag, hDiv, hUl]

theorem mdProcessLines_count (lines : List (List Char)) :
    ∀ b : Bool, sumCount (mdProcessLines b lines) = sumCount lines := by
  have hUl : countDollar (chars "</ul>") = 0 := by decide
  induction lines with
  | nil => intro b; cases b <;> simp [mdProcessLines, sumCount, List.foldr, hUl]
  | cons line rest ih =>
    intro b
    simp only [mdProcessLines, sumCount_append]
    rw [ih (mdLinePieces b line).2, mdLinePieces_count b line]
    simp [sumCount, List.foldr]

theorem countDollar_star_star_cons (l : List Char) :
    countDollar ('*' :: '*' :: l) = countDollar l := by
  simp [countDollar]

theorem boldMatchAt_count {s body after : List Char}
    (h : boldMatchAt s = some (body, after)) :
    countDollar s = countDollar body + countDollar after := by
  match s with
  | [] => simp [boldMatchAt] at h
  | [c] => simp [boldMatchAt] at h
  | c1 :: c2 :: rest =>
    have hsplit := List.takeWhile_append_dropWhile (fun c => c != '*') rest
    simp only [boldMatchAt] at h
    split at h
    · rename_i hcond
      obtain ⟨e1, e2, hne⟩ := hcond
      subst e1; subst e2
      split at h
      · rename_i a b after' heq
        split at h
        · rename_i hab
          obtain ⟨ea, eb⟩ := hab
          subst ea; subst eb
          injection h with h'
          injection h' with hb ha
          subst hb; subst ha
          have hr := congrArg countDollar hsplit
          rw [countDollar_append, heq, countDollar_star_star_cons] at hr
          rw [countDollar_star_star_cons]
          omega
        · simp at h
      · simp at h
    · simp at h

theorem boldReplaceAux_count : ∀ (fuel : Nat) (s : List Char),
    countDollar (boldReplaceAux fuel s) = countDollar s := by
  have hS : countDollar (chars "<strong>") = 0 := by decide
  have hSC : countDollar (chars "</strong>") = 0 := by decide
  intro fuel
  induction fuel with
  | zero => intro s; rfl
  | succ fuel ih =>
    intro s
    match s with
    | [] => rfl
    | c :: cs =>
      cases hm : boldMatchAt (c :: cs) with
      | some p =>
        obtain ⟨body, after⟩ := p
        have hc := boldMatchAt_count hm
        have hstep : boldReplaceAux (fuel + 1) (c :: cs)
            = chars "<strong>" ++ body ++ chars "</strong>" ++ boldReplaceAux fuel after := by
          rw [boldReplaceAux.eq_def]
          simp only [hm]
        rw [hstep]
        simp only [countDollar_append, ih, hS, hSC]
        omega
      | none =>
        have hstep : boldReplaceAux (fuel + 1) (c :: cs)
            = c :: boldReplaceAux fuel cs := by
          rw [boldReplaceAux.eq_def]
          simp only [hm]
        rw [hstep]
        simp [countDollar, ih cs]

theorem countDollar_renderMarkdown (text : List Char) :
    countDollar (renderMarkdown text) = countDollar text := by
  unfold renderMarkdown
  rw [boldReplaceAux_count, countDollar_flatten, mdProcessLines_count,
    sumCount_splitLines, countDollar_crlfToLf]

theorem countDollar_eq_zero_of_not_mem {l : List Char} (h : '$' ∉ l) :
    countDollar l = 0 := by
  induction l with
  | nil => rfl
  | cons c cs ih =>
    have hc : c ≠ '$' := fun he => h (he ▸ List.mem_cons_self c cs)
    have hcs : '$' ∉ cs := fun hm => h (List.mem_cons_of_mem c hm)
    have hcd : (c == '$') = false := by
      cases hd : c == '$'
      · rfl
      · exact absurd (by simpa using hd) hc
    simp [countDollar, hcd, ih hcs]

theorem mathScanAux_no_dollar : ∀ (fuel k : Nat) (s : List Char), '$' ∉ s →
    mathScanAux fuel k s = (s, []) := by
  intro fuel
  induction fuel with
  | zero => intro k s h; rfl
  | succ fuel ih =>
    intro k s h
    match s with
    | [] => rfl
    | c :: cs =>
      have hc : c ≠ '$' := fun he => h (he ▸ List.mem_cons_self c cs)
      have hcs : '$' ∉ cs := fun hm => h (List.mem_cons_of_mem c hm)
      rw [mathScanAux.eq_def]
      simp [hc, ih k cs hcs]

theorem splitDelim_eq_none {x : Char} {d s : List Char} (h : x ∉ s) :
    splitDelim (x :: d) s = none := by
  induction s with
  | nil => simp [splitDelim]
  | cons c cs ih =>
    have hc : c ≠ x := fun he => h (he ▸ List.mem_cons_self c cs)
    have hcs : x ∉ cs := fun hm => h (List.mem_cons_of_mem c hm)
    have hpre : (x :: d).isPrefixOf (c :: cs) = false := by
      simp [List.isPrefixOf]
      intro he
      exact absurd he.symm hc
    rw [splitDelim.eq_def]
    simp [hpre, ih hcs]

theorem head_not_dollar {suf : List Char} (h : '$' ∉ suf) :
    (suf.head? == some '$') = false := by
  cases suf with
  | nil => rfl
  | cons c cs =>
    have hc : c ≠ '$' := fun he => h (he ▸ List.mem_cons_self c cs)
    simp [List.head?, hc]

theorem mathScanAux_unmatched_inline {suf : List Char} (h : '$' ∉ suf) :
    ∀ (fuel k : Nat), mathScanAux fuel k ('$' :: suf) = ('$' :: suf, []) := by
  intro fuel k
  match fuel with
  | 0 => rfl
  | fuel + 1 =>
    rw [mathScanAux.eq_def]
    simp only [head_not_dollar h, if_pos rfl]
    simp [splitDelim_eq_none h, mathScanAux_no_dollar fuel k suf h]

theorem mathScanAux_unmatched_display {suf : List Char} (h : '$' ∉ suf) :
    ∀ (fuel k : Nat), mathScanAux fuel k ('$' :: '$' :: suf) = ('$' :: '$' :: suf, []) := by
  intro fuel k
  match fuel with
  | 0 => rfl
  | fuel + 1 =>
    rw [mathScanAux.eq_def]
    simp only [List.head?, if_pos rfl]
    simp [splitDelim_eq_none h, mathScanAux_unmatched_inline h fuel k]

theorem mathScanAux_append {pre : List Char} (hpre : '$' ∉ pre) :
    ∀ (fuel k : Nat) (s : List Char),
    mathScanAux fuel k (pre ++ s)
      = (pre ++ (mathScanAux (fuel - pre.length) k s).1,
         (mathScanAux (fuel - pre.length) k s).2) := by
  induction pre with
  | nil => intro fuel k s; simp
  | cons c pre ih =>
    have hc : c ≠ '$' := fun he => hpre (he ▸ List.mem_cons_self c pre)
    have hpre' : '$' ∉ pre := fun hm => hpre (List.mem_cons_of_mem c hm)
    intro fuel k s
    match fuel with
    | 0 =>
      rw [mathScanAux.eq_def]
      have h0 : ∀ t : List Char, mathScanAux 0 k t = (t, []) := fun t => rfl
      simp [h0]
    | fuel + 1 =>
      rw [mathScanAux.eq_def]
      simp only [List.cons_append]
      simp [hc, ih hpre' fuel k s, Nat.succ_sub_succ]

theorem countDollar_cons_dollar (l : List Char) :
    countDollar ('$' :: l) = 1 + countDollar l := by
  simp [countDollar]

/-- C1: for every input string `renderLatex` is total — in this embedding it
is a total function into `List Char`, with the only partial operation
(`katex.renderToString`) modelled as an `Option` result whose `none` case the
source catches — and on inputs without any `'$'` its output is exactly
`renderMarkdown` of the same text: the `while` scan copies every character
verbatim and records no math token, so the placeholder substitution loop is a
no-op. -/
theorem renderLatex_markdown_only_on_dollar_free
    (kr : List Char → Bool → Option (List Char)) (text : List Char)
    (h : '$' ∉ text) :
    renderLatex kr text = renderMarkdown text := by
  unfold renderLatex
  rw [mathScanAux_no_dollar text.length 0 text h]
  rfl

/-- Witness for `renderLatex_markdown_only_on_dollar_free` at a concrete
dollar-free input. -/
theorem renderLatex_markdown_only_on_dollar_free_witness :
    '$' ∉ chars "# Hi\n- a **b**"
      ∧ renderLatex krTest (chars "# Hi\n- a **b**")
          = renderMarkdown (chars "# Hi\n- a **b**") :=
  ⟨by decide, renderLatex_markdown_only_on_dollar_free krTest _ (by decide)⟩

/-- C3 counterexample: in `"$$a$b"` the `'$$'` opener has no matching `'$$'`
closing delimiter (third conjunct), yet the opening characters do **not**
appear unchanged in the output: the scan emits only the first `'$'` literally
and re-reads the second `'$'` as an inline opener, which then pairs with the
later `'$'` and is rendered away, so a single `'$'` remains (first conjunct)
and the substring `"$$"` does not occur in the output (second conjunct). -/
theorem renderLatex_unmatched_display_counterexample :
    countDollar (renderLatex krTest (chars "$$a$b")) = 1
      ∧ containsSub (chars "$$") (renderLatex krTest (chars "$$a$b")) = false
      ∧ splitDelim (chars "$$") (chars "a$b") = none := by decide

/-- C3 (amended): when an opening math delimiter is followed by no further
`'$'` at all, it is treated as literal text and `renderLatex` does not throw:
for an inline `'$'` opener the output is exactly the Markdown transformation
of the unchanged text and contains exactly one `'$'`; for a `'$$'` opener the
output is the Markdown transformation of the unchanged text and contains
exactly two `'$'`.  (When further `'$'` characters follow an unmatched `'$$'`
opener, only its first `'$'` is kept literally and scanning resumes at the
second — see the counterexample.) -/
theorem renderLatex_unmatched_opener_literal
    (kr : List Char → Bool → Option (List Char)) (pre suf : List Char)
    (hpre : '$' ∉ pre) (hsuf : '$' ∉ suf) :
    (renderLatex kr (pre ++ '$' :: suf) = renderMarkdown (pre ++ '$' :: suf)
      ∧ countDollar (renderLatex kr (pre ++ '$' :: suf)) = 1)
    ∧ (renderLatex kr (pre ++ '$' :: '$' :: suf)
        = renderMarkdown (pre ++ '$' :: '$' :: suf)
      ∧ countDollar (renderLatex kr (pre ++ '$' :: '$' :: suf)) = 2) := by
  have hp0 : countDollar pre = 0 := countDollar_eq_zero_of_not_mem hpre
  have hs0 : countDollar suf = 0 := countDollar_eq_zero_of_not_mem hsuf
  have e1 : renderLatex kr (pre ++ '$' :: suf) = renderMarkdown (pre ++ '$' :: suf) := by
    unfold renderLatex
    rw [mathScanAux_append hpre, mathScanAux_unmatched_inline hsuf]
    rfl
  have e2 : renderLatex kr (pre ++ '$' :: '$' :: suf)
      = renderMarkdown (pre ++ '$' :: '$' :: suf) := by
    unfold renderLatex
    rw [mathScanAux_append hpre, mathScanAux_unmatched_display hsuf]
    rfl
  refine ⟨⟨e1, ?_⟩, ⟨e2, ?_⟩⟩
  · rw [e1, countDollar_renderMarkdown, countDollar_append,
      countDollar_cons_dollar, hp0, hs0]
  · rw [e2, countDollar_renderMarkdown, countDollar_append,
      countDollar_cons_dollar, countDollar_cons_dollar, hp0, hs0]

/-- Witness for `renderLatex_unmatched_opener_literal` at concrete inputs. -/
theorem renderLatex_unmatched_opener_literal_witness :
    (renderLatex krTest (chars "x " ++ '$' :: chars "y")
        = renderMarkdown (chars "x " ++ '$' :: chars "y")
      ∧ countDollar (renderLatex krTest (chars "x " ++ '$' :: chars "y")) = 1)
    ∧ (renderLatex krTest (chars "x " ++ '$' :: '$' :: chars "y")
        = renderMarkdown (chars "x " ++ '$' :: '$' :: chars "y")
      ∧ countDollar (renderLatex krTest (chars "x " ++ '$' :: '$' :: chars "y")) = 2) :=
  renderLatex_unmatched_opener_literal krTest (chars "x ") (chars "y")
    (by decide) (by decide)

theorem pairDirectives_length (kind : String) (anchors : List Nat) :
    ∀ (cs : List (List Char)) (i : Nat),
    (pairDirectives kind anchors i cs).length = cs.length := by
  intro cs
  induction cs with
  | nil => intro i; rfl
  | cons c cs ih => intro i; simp [pairDirectives, ih]

theorem pairDirectives_getElem (kind : String) (anchors : List Nat) :
    ∀ (cs : List (List Char)) (i j : Nat),
    (pairDirectives kind anchors i cs)[j]?
      = (cs[j]?).map (fun c => (⟨kind, (anchors[i + j]?).map Anchor.element, c⟩ : Directive)) := by
  intro cs
  induction cs with
  | nil => intro i j; simp [pairDirectives]
  | cons c cs ih =>
    intro i j
    match j with
    | 0 => simp [pairDirectives]
    | j + 1 =>
      simp only [pairDirectives, List.getElem?_cons_succ, ih (i + 1) j]
      have : i + 1 + j = i + (j + 1) := by omega
      rw [this]

/-- C9: extracting directives from the document text `"[Math: x^2]"` yields
exactly one directive, of kind Math, with content `x^2` — the whitespace
after the colon is consumed by the `\s*` of the pattern, not kept in the
content. -/
theorem extractDirectives_math_example :
    getAllDirectivesFromNotebookCells [chars "[Math: x^2]"]
      = [⟨"Math", some Anchor.documentBody, chars "x^2"⟩] := by decide

/-- C4 counterexample: with document text `"[Math: x]"` and no span elements
at all, the regex pass finds one Math match but there is no anchor to pair it
with; the extractor does **not** drop the excess match — it emits a directive
whose anchor is `none` (JavaScript `undefined`), so the output is not limited
to validly anchored directives. -/
theorem getAllMathPlusDirectives_excess_not_dropped :
    getAllMathPlusDirectives (chars "[Math: x]") []
      = [⟨"Math", none, chars "x"⟩] := by decide

/-- C4 (amended): excess directive matches are **not** dropped: the extractor
emits one directive per regex match of each kind (first conjunct), and every
Math directive whose positional index is beyond the number of Math-mentioning
anchor spans is emitted with an absent (`undefined`) anchor rather than being
removed (second conjunct). -/
theorem getAllMathPlusDirectives_excess_anchorless
    (text : List Char) (spans : List (List Char)) :
    (getAllMathPlusDirectives text spans).length
      = (directiveMatches (chars "Math") text).length
        + (directiveMatches (chars "Wolfram") text).length
        + (directiveMatches (chars "Explain") text).length
    ∧ ∀ (i : Nat) (d : Directive),
        (spanIndicesMentioning (chars "Math") spans).length ≤ i →
        i < (directiveMatches (chars "Math") text).length →
        (getAllMathPlusDirectives text spans)[i]? = some d →
        d.object = none := by
  constructor
  · simp [getAllMathPlusDirectives, pairDirectives_length]
    omega
  · intro i d hanch hlt hget
    unfold getAllMathPlusDirectives at hget
    rw [List.getElem?_append_left (by
      rw [List.length_append, pairDirectives_length]
      omega)] at hget
    rw [List.getElem?_append_left (by rw [pairDirectives_length]; omega)] at hget
    rw [pairDirectives_getElem] at hget
    have hnone : (spanIndicesMentioning (chars "Math") spans)[0 + i]? = none :=
      List.getElem?_eq_none (by omega)
    rw [hnone] at hget
    cases hc : (directiveMatches (chars "Math") text)[i]? with
    | none => rw [hc] at hget; simp at hget
    | some c =>
      rw [hc] at hget
      simp at hget
      rw [← hget]

/-- Witness for `getAllMathPlusDirectives_excess_anchorless`: two Math
matches but a single Math-mentioning span; the second directive is emitted
with an absent anchor. -/
theorem getAllMathPlusDirectives_excess_anchorless_witness :
    (getAllMathPlusDirectives (chars "[Math: x][Math: y]") [chars "Math"]).length
      = (directiveMatches (chars "Math") (chars "[Math: x][Math: y]")).length
        + (directiveMatches (chars "Wolfram") (chars "[Math: x][Math: y]")).length
        + (directiveMatches (chars "Explain") (chars "[Math: x][Math: y]")).length
    ∧ (⟨"Math", none, chars "y"⟩ : Directive).object = none :=
  ⟨(getAllMathPlusDirectives_excess_anchorless _ _).1,
   (getAllMathPlusDirectives_excess_anchorless (chars "[Math: x][Math: y]") [chars "Math"]).2
     1 ⟨"Math", none, chars "y"⟩ (by decide) (by decide) (by decide)⟩

/-- C10 counterexample: with no persisted mode at all (`undef`),
`getStoredProcessingMode` returns `'v2'`, not `'v1'`, and `runComputeAi`
therefore takes the batch (v2) path, not the per-anchor path the claim
asserts. -/
theorem getStoredProcessingMode_absent_counterexample :
    getStoredProcessingMode JsValue.undef = "v2"
    ∧ runComputeAiPath (getStoredProcessingMode JsValue.undef)
        = ProcessingPath.batch := by decide

/-- C10 (amended): `getStoredProcessingMode` returns `'v1'` only when the
persisted value is exactly the string `'v1'`, and returns `'v2'` for every
other persisted value (including absent or malformed values); consequently
`runComputeAi` takes the batch (v2) path whenever no mode has been stored. -/
theorem getStoredProcessingMode_defaults_v2 (stored : JsValue) :
    (getStoredProcessingMode stored = "v1" ↔ stored = JsValue.str "v1")
    ∧ (stored ≠ JsValue.str "v1" → getStoredProcessingMode stored = "v2")
    ∧ runComputeAiPath (getStoredProcessingMode JsValue.undef)
        = ProcessingPath.batch := by
  refine ⟨?_, ?_, by decide⟩
  · unfold getStoredProcessingMode
    split
    · simp_all
    · simp_all
  · intro h
    unfold getStoredProcessingMode
    rw [if_neg h]

/-- Witness for `getStoredProcessingMode_defaults_v2` at a malformed stored
value. -/
theorem getStoredProcessingMode_defaults_v2_witness :
    (getStoredProcessingMode (JsValue.num 7) = "v1" ↔ JsValue.num 7 = JsValue.str "v1")
    ∧ getStoredProcessingMode (JsValue.num 7) = "v2" :=
  ⟨(getStoredProcessingMode_defaults_v2 (JsValue.num 7)).1,
   (getStoredProcessingMode_defaults_v2 (JsValue.num 7)).2.1 (by decide)⟩

/-- C5 counterexample: a relay reply with `status = "success"` and an empty
`answer` string is neither a channel-level failure nor a non-success status,
yet `fetchAIResponse` returns `null` for it (`answer || null` with a falsy
empty string); likewise for a success reply with `answer` absent. -/
theorem fetchAIResponse_success_empty_counterexample :
    fetchAIResponse (some ⟨"success", some ""⟩) = none
    ∧ fetchAIResponse (some ⟨"success", none⟩) = none
    ∧ (⟨"success", some ""⟩ : RelayResponse).status = "success" := by decide

/-- C5 (amended): `fetchAIResponse` returns the answer string when the relay
replies success with a present, non-empty answer, and returns `null` exactly
when the channel fails (absent reply), the relay reports a non-success
status, **or** the relay reports success with an absent or empty answer. -/
theorem fetchAIResponse_null_characterisation (response : Option RelayResponse) :
    (fetchAIResponse response = none ↔
      response = none
      ∨ (∃ r, response = some r ∧ r.status ≠ "success")
      ∨ (∃ r, response = some r ∧ r.status = "success"
          ∧ (r.answer = none ∨ r.answer = some "")))
    ∧ (∀ a : String, a ≠ "" →
        fetchAIResponse (some ⟨"success", some a⟩) = some a) := by
  constructor
  · match response with
    | none => simp [fetchAIResponse]
    | some r =>
      obtain ⟨st, ans⟩ := r
      by_cases hst : st = "success"
      · subst hst
        match ans with
        | none => simp [fetchAIResponse]
        | some a =>
          by_cases ha : a = ""
          · subst ha; simp [fetchAIResponse]
          · simp [fetchAIResponse, ha]
      · simp [fetchAIResponse, hst]
  · intro a ha
    simp [fetchAIResponse, ha]

/-- Witness for `fetchAIResponse_null_characterisation` at a concrete
non-empty answer. -/
theorem fetchAIResponse_null_characterisation_witness :
    fetchAIResponse (some ⟨"success", some "42"⟩) = some "42" :=
  (fetchAIResponse_null_characterisation (some ⟨"success", some "42"⟩)).2 "42" (by decide)

/-- C2: a poll tick calls `loadMessages(false)`; after any first poll the
last rendered signature equals the snapshot's signature, so a second poll of
the identical snapshot computes the same signature and skips
`renderChatMessages`. -/
theorem loadMessages_identical_poll_skips_render
    (st : ChatPanelState) (msgs : List OneChatMessage)
    (hroom : st.currentRoomId ≠ "") (hload : st.isLoading = false) :
    ((loadMessages st msgs false).1.lastMessagesSignature
        = chatSignature st.currentRoomId msgs)
    ∧ ((loadMessages st msgs false).1.currentRoomId = st.currentRoomId)
    ∧ (loadMessages (loadMessages st msgs false).1 msgs false).2 = false := by
  unfold loadMessages
  by_cases hsig : chatSignature st.currentRoomId msgs = st.lastMessagesSignature
  · simp [hroom, hload, hsig]
  · simp [hroom, hload, hsig]

/-- Witness for `loadMessages_identical_poll_skips_render` at a concrete
panel state and snapshot. -/
theorem loadMessages_identical_poll_skips_render_witness :
    ((loadMessages ⟨"mat2", false, "", true⟩ [⟨"alice", "hi", "t1"⟩] false).1.lastMessagesSignature
        = chatSignature "mat2" [⟨"alice", "hi", "t1"⟩])
    ∧ ((loadMessages ⟨"mat2", false, "", true⟩ [⟨"alice", "hi", "t1"⟩] false).1.currentRoomId = "mat2")
    ∧ (loadMessages (loadMessages ⟨"mat2", false, "", true⟩ [⟨"alice", "hi", "t1"⟩] false).1
        [⟨"alice", "hi", "t1"⟩] false).2 = false :=
  loadMessages_identical_poll_skips_render ⟨"mat2", false, "", true⟩
    [⟨"alice", "hi", "t1"⟩] (by decide) rfl

theorem chatPanelTimerStep_invariant (s : PanelTimerState)
    (h : s.activeTimers = trackedTimerList s.pollingId) (a : ChatPanelAction) :
    (chatPanelTimerStep s a).activeTimers
      = trackedTimerList (chatPanelTimerStep s a).pollingId := by
  have hstopNone : (stopPolling s).pollingId = none := by
    unfold stopPolling
    cases hp : s.pollingId <;> simp [hp]
  have hstop : (stopPolling s).activeTimers = trackedTimerList (stopPolling s).pollingId := by
    unfold stopPolling
    cases hp : s.pollingId with
    | none => simpa [hp] using h
    | some i =>
      rw [hp] at h
      simp [h, trackedTimerList, List.filter]
  cases a with
  | joinNewRoom =>
    rw [hstopNone] at hstop
    simp [chatPanelTimerStep, startPolling, trackedTimerList, hstop, hstopNone]
  | rejoinSameRoom => exact h
  | leaveRoom => exact hstop
  | closePanel => exact hstop

/-- C6: after any sequence of join/rejoin/leave/close actions on an open chat
panel, the set of live interval handles is exactly the tracked one — `[i]`
when `pollingId = some i`, empty when it is null — and in particular at most
one poll timer is ever active: `startPolling` cancels the previous handle
before creating a new one, and leaving a room or closing the panel cancels
the handle. -/
theorem chat_panel_single_poll_timer (acts : List ChatPanelAction) :
    (runChatPanelTimers acts).activeTimers
        = trackedTimerList (runChatPanelTimers acts).pollingId
    ∧ (runChatPanelTimers acts).activeTimers.length ≤ 1 := by
  have main : ∀ (l : List ChatPanelAction) (s : PanelTimerState),
      s.activeTimers = trackedTimerList s.pollingId →
      (l.foldl chatPanelTimerStep s).activeTimers
        = trackedTimerList (l.foldl chatPanelTimerStep s).pollingId := by
    intro l
    induction l with
    | nil => intro s h; exact h
    | cons a l ih =>
      intro s h
      exact ih (chatPanelTimerStep s a) (chatPanelTimerStep_invariant s h a)
  have h1 : (runChatPanelTimers acts).activeTimers
      = trackedTimerList (runChatPanelTimers acts).pollingId :=
    main acts initialPanelTimerState rfl
  refine ⟨h1, ?_⟩
  rw [h1]
  cases (runChatPanelTimers acts).pollingId <;> simp [trackedTimerList]

/-- C7: for a non-empty item list of size `n`, the carousel index always
stays in `[0, n)`; `prev` at index 0 and `next` at index `n - 1` are no-ops;
and for `n = 1` both controls are disabled at every reachable index. -/
theorem carousel_index_in_bounds (n : Nat) (ops : List CarouselNav) (hn : 0 < n) :
    runCarousel n ops < n
    ∧ carouselPrev 0 = 0
    ∧ carouselNext n (n - 1) = n - 1
    ∧ (n = 1 → carouselNavDisabled n (runCarousel n ops) = (true, true)) := by
  have hrun : ∀ (l : List CarouselNav) (i : Nat), i < n →
      l.foldl (carouselStep n) i < n := by
    intro l
    induction l with
    | nil => intro i hi; exact hi
    | cons a l ih =>
      intro i hi
      refine ih (carouselStep n i a) ?_
      cases a with
      | prev =>
        simp only [carouselStep, carouselPrev]
        split
        · omega
        · omega
      | next =>
        simp only [carouselStep, carouselNext]
        split
        · rename_i hlt; omega
        · omega
  have hbound : runCarousel n ops < n := hrun ops 0 hn
  refine ⟨hbound, by simp [carouselPrev], ?_, ?_⟩
  · unfold carouselNext
    rw [if_neg (by omega)]
  · intro h1
    subst h1
    have : runCarousel 1 ops = 0 := by omega
    rw [this]
    rfl

/-- Witness for `carousel_index_in_bounds` at the singleton carousel. -/
theorem carousel_index_in_bounds_witness :
    runCarousel 1 [CarouselNav.next, CarouselNav.prev] < 1
    ∧ carouselPrev 0 = 0
    ∧ carouselNext 1 (1 - 1) = 1 - 1
    ∧ (1 = 1 → carouselNavDisabled 1 (runCarousel 1 [CarouselNav.next, CarouselNav.prev])
        = (true, true)) :=
  carousel_index_in_bounds 1 [CarouselNav.next, CarouselNav.prev] (by decide)

/-- C8: when the audit response parses to a value whose `errors` property is
the empty array, exactly one "no findings" notice modal is shown and it
carries no carousel navigation; when the response fails to parse, or parses
to a value without an `errors` array, a single "format error" notice is
shown instead of a crash. -/
theorem runNotebookAuditV2_notice_behaviour (s : String) (j : Json) :
    (getField j "errors" = some (Json.arr []) →
      runNotebookAuditV2Handle (some s) (some j) = AuditOutcome.noFindings
      ∧ auditOverlayCount (runNotebookAuditV2Handle (some s) (some j)) = 1
      ∧ auditOutcomeHasNav (runNotebookAuditV2Handle (some s) (some j)) = false)
    ∧ (runNotebookAuditV2Handle (some s) none = AuditOutcome.formatError
      ∧ auditOverlayCount AuditOutcome.formatError = 1)
    ∧ ((∀ items : List Json, getField j "errors" ≠ some (Json.arr items)) →
      runNotebookAuditV2Handle (some s) (some j) = AuditOutcome.formatError) := by
  refine ⟨?_, ⟨rfl, rfl⟩, ?_⟩
  · intro herr
    have hobj : jsFalsy j = false := by
      match j with
      | Json.obj fields => rfl
      | Json.null | Json.bool _ | Json.num _ | Json.str _ | Json.arr _ =>
        simp [getField] at herr
    have hrun : runNotebookAuditV2Handle (some s) (some j) = AuditOutcome.noFindings := by
      simp only [runNotebookAuditV2Handle]
      rw [hobj]
      simp only [Bool.false_eq_true, if_false, herr]
      rfl
    exact ⟨hrun, by rw [hrun]; rfl, by rw [hrun]; rfl⟩
  · intro hnone
    simp only [runNotebookAuditV2Handle]
    by_cases hf : jsFalsy j = true
    · rw [hf]; rfl
    · rw [Bool.not_eq_true] at hf
      rw [hf]
      cases hg : getField j "errors" with
      | none => rfl
      | some v =>
        cases v with
        | arr items => exact absurd hg (hnone items)
        | null => rfl
        | bool b => rfl
        | num n => rfl
        | str t => rfl
        | obj fields => rfl

/-- Witness for `runNotebookAuditV2_notice_behaviour`: an `{"errors": []}`
response yields the single no-findings notice, and a bare `null` response
yields the format-error notice. -/
theorem runNotebookAuditV2_notice_behaviour_witness :
    runNotebookAuditV2Handle (some "x") (some (Json.obj [("errors", Json.arr [])]))
        = AuditOutcome.noFindings
    ∧ runNotebookAuditV2Handle (some "x") (some Json.null) = AuditOutcome.formatError :=
  ⟨((runNotebookAuditV2_notice_behaviour "x" (Json.obj [("errors", Json.arr [])])).1
      (by rfl)).1,
   (runNotebookAuditV2_notice_behaviour "x" Json.null).2.2
     (fun items h => Option.noConfusion h)⟩

end MathematicaPlus

